import Mathlib

/-!
# Verification of the Tangent Consciousness agent core

A shallow embedding of `src/tangent_agent.py`: role-skew contexts
(`RoleContext`), goals with exponential score decay and reinforcement
(`Goal`), and the agent (`TangentAgent`) that decays its goals, scores
their relevance to a stimulus by case-insensitive substring containment
of the goal name, reinforces the best match above the 0.3 threshold and
records the interpretation.

Scores and times are real numbers (the Python code uses floats and
`math.exp`); the wall clock is made explicit by passing the current
instant `now` to every state-changing operation, so `elapsed` in
`Goal.decay` is `now - last_updated` exactly as in the source.  Python
dictionaries (`self.goals = {g.name: g for g in goals}`) are modelled by
association lists in insertion order with the dict-comprehension insert
semantics (`dictInsert`): a repeated key keeps its first position and
takes the last value.
-/

namespace Tangent

/-- Model of Python `str.lower()` on the character sequence of a string
(exact on the ASCII range used by the agent). -/
def strLower (s : String) : List Char := s.toList.map Char.toLower

/-- `RoleContext.__init__`: an ordered stack of role profiles, each a
mapping from trait name to skew coefficient. -/
structure RoleContext where
  layered_role_skews : List (List (String × ℝ))

/-- Python `role.get(trait, 1.0)`.  `Goal.trait` may be unset (`None` in
Python), in which case the lookup in a string-keyed dict always misses. -/
def roleGet (role : List (String × ℝ)) : Option String → ℝ
  | none => 1.0
  | some t => ((role.find? fun p => p.1 == t).map Prod.snd).getD 1.0

/-- `RoleContext.skew_for`: starts at 1.0 and multiplies in each
profile's coefficient for the trait (1.0 when the profile lacks it). -/
noncomputable def RoleContext.skew_for (rc : RoleContext) (trait : Option String) : ℝ :=
  rc.layered_role_skews.foldl (fun skew role => skew * roleGet role trait) 1.0

/-- `Goal.__init__` fields.  `last_updated` is the instant of the last
update (construction time initially). -/
structure Goal where
  name : String
  category : Option String
  subcategory : Option String
  trait : Option String
  trait_sigma : ℝ
  score : ℝ
  last_updated : ℝ

/-- `Goal.decay(rate)` evaluated at wall-clock instant `now`:
`score *= exp(-rate * elapsed)` with `elapsed = now - last_updated`,
then `last_updated = now`. -/
noncomputable def Goal.decay (g : Goal) (now rate : ℝ) : Goal :=
  { g with
    score := g.score * Real.exp (-(rate * (now - g.last_updated)))
    last_updated := now }

/-- `Goal.reinforce(boost)` evaluated at instant `now`:
`score += boost * trait_sigma`, then `last_updated = now`. -/
noncomputable def Goal.reinforce (g : Goal) (boost now : ℝ) : Goal :=
  { g with
    score := g.score + boost * g.trait_sigma
    last_updated := now }

/-- `Goal.weighted_score(role_context)`: `score * trait_sigma * skew`. -/
noncomputable def Goal.weighted_score (g : Goal) (rc : RoleContext) : ℝ :=
  g.score * g.trait_sigma * rc.skew_for g.trait

/-- The interpretation record `perceive` produces and appends to memory. -/
structure Interpretation where
  stimulus : String
  best_goal : Option String
  relevance_score : ℝ
  aligned : Prop

/-- Agent state: the goal dict (as an association list in insertion
order, keys unique), the interpretation memory and the role context. -/
structure TangentAgent where
  goals : List Goal
  memory : List Interpretation
  role_context : RoleContext

/-- One step of the dict comprehension `{g.name: g for g in goals}`:
a repeated key keeps its first position and takes the last value. -/
def dictInsert (m : List Goal) (g : Goal) : List Goal :=
  if m.any fun h => h.name == g.name then
    m.map fun h => if h.name == g.name then g else h
  else m ++ [g]

/-- The whole dict comprehension of `TangentAgent.__init__`. -/
def makeGoals (gs : List Goal) : List Goal := gs.foldl dictInsert []

/-- `TangentAgent.__init__(goals, role_context)`. -/
def TangentAgent.init (gs : List Goal) (rc : RoleContext) : TangentAgent :=
  { goals := makeGoals gs, memory := [], role_context := rc }

/-- Whether a goal name matches a stimulus: the lowercased name occurs
as a substring of the lowercased stimulus (`keyword in stimulus.lower()`). -/
def nameMatches (g : Goal) (stimulus : String) : Prop :=
  strLower g.name <:+: strLower stimulus

instance nameMatchesDecidable (g : Goal) (s : String) : Decidable (nameMatches g s) :=
  List.decidableInfix _ _

/-- `TangentAgent._assess_relevance`: the relevance map, in goal-dict
iteration order, restricted to goals whose name matches the stimulus. -/
noncomputable def TangentAgent.assessRelevance (a : TangentAgent) (stimulus : String) :
    List (String × ℝ) :=
  a.goals.filterMap fun g =>
    if nameMatches g stimulus then some (g.name, g.weighted_score a.role_context)
    else none

/-- Python `max(items, key=lambda kv: kv[1], default=(None, 0))`: the
first item attaining the maximum value, or `(None, 0)` on the empty map. -/
noncomputable def bestOf : List (String × ℝ) → Option String × ℝ
  | [] => (none, 0)
  | x :: xs => xs.foldl (fun b kv => if b.2 < kv.2 then (some kv.1, kv.2) else b)
      (some x.1, x.2)

/-- Python `best_match[0] in self.goals` (membership among dict keys;
`None` is never a key). -/
def hasKey (goals : List Goal) : Option String → Bool
  | none => false
  | some n => goals.any fun g => g.name == n

/-- `TangentAgent._decay_goals` at instant `now` (default rate 0.01). -/
noncomputable def TangentAgent.decayAll (a : TangentAgent) (now : ℝ) : TangentAgent :=
  { a with goals := a.goals.map fun g => g.decay now 0.01 }

/-- The best match `perceive` selects after decaying, exposed for the
statements below. -/
noncomputable def TangentAgent.perceiveBest (a : TangentAgent) (stimulus : String) (now : ℝ) :
    Option String × ℝ :=
  bestOf ((a.decayAll now).assessRelevance stimulus)

/-- `TangentAgent.perceive(stimulus)` at instant `now`: decay every
goal, assess relevance, pick the best match, reinforce it when aligned
(relevance above 0.3) and present among the keys, append the
interpretation to memory, and return it with the new agent state. -/
noncomputable def TangentAgent.perceive (a : TangentAgent) (stimulus : String) (now : ℝ) :
    Interpretation × TangentAgent :=
  let a1 := a.decayAll now
  let best := bestOf (a1.assessRelevance stimulus)
  let interp : Interpretation :=
    { stimulus := stimulus
      best_goal := best.1
      relevance_score := best.2
      aligned := (0.3:ℝ) < best.2 }
  let goals2 :=
    if (0.3:ℝ) < best.2 ∧ hasKey a1.goals best.1 = true then
      a1.goals.map fun g => if some g.name = best.1 then g.reinforce 0.5 now else g
    else a1.goals
  (interp, { a1 with goals := goals2, memory := a1.memory ++ [interp] })

/-- `TangentAgent.prioritized_goals`: Python `sorted(..., reverse=True)`
is a stable descending sort by `weighted_score(role_context)`; insertion
sort under the reversed order models it exactly. -/
noncomputable def TangentAgent.prioritized_goals (a : TangentAgent) : List Goal :=
  letI : DecidableRel fun g h : Goal =>
      h.weighted_score a.role_context ≤ g.weighted_score a.role_context :=
    fun _ _ => Real.decidableLE _ _
  List.insertionSort
    (fun g h => h.weighted_score a.role_context ≤ g.weighted_score a.role_context)
    a.goals

/-- A single goal-state operation of the kind the agent performs:
a decay with some rate at some instant, or a default reinforcement
(`boost = 0.5`) at some instant. -/
inductive GoalOp where
  | decayStep (rate now : ℝ)
  | reinforceStep (now : ℝ)

/-- Apply one operation to a goal. -/
noncomputable def applyOp (g : Goal) : GoalOp → Goal
  | .decayStep rate now => g.decay now rate
  | .reinforceStep now => g.reinforce 0.5 now

/-- Apply a sequence of operations, oldest first. -/
noncomputable def applyOps (g : Goal) : List GoalOp → Goal
  | [] => g
  | op :: ops => applyOps (applyOp g op) ops

/-- Validity of an operation sequence against the evolving goal state:
every decay has a positive rate and a non-negative elapsed time
(`last_updated ≤ now` at the moment it runs). -/
inductive ValidOps : Goal → List GoalOp → Prop
  | nil (g : Goal) : ValidOps g []
  | decayStep (g : Goal) (rate now : ℝ) (ops : List GoalOp) (hr : 0 < rate)
      (ht : g.last_updated ≤ now) (h : ValidOps (g.decay now rate) ops) :
      ValidOps g (GoalOp.decayStep rate now :: ops)
  | reinforceStep (g : Goal) (now : ℝ) (ops : List GoalOp)
      (h : ValidOps (g.reinforce 0.5 now) ops) :
      ValidOps g (GoalOp.reinforceStep now :: ops)

/-- A sample goal used to instantiate the universally quantified
theorems below at a concrete input. -/
noncomputable def sampleGoal : Goal :=
  { name := "build"
    category := none
    subcategory := none
    trait := none
    trait_sigma := 1
    score := 1
    last_updated := 0 }

theorem validOps_score_nonneg (g : Goal) (ops : List GoalOp) (hv : ValidOps g ops) :
    0 ≤ g.score → 0 < g.trait_sigma →
    0 ≤ (applyOps g ops).score ∧ (applyOps g ops).trait_sigma = g.trait_sigma := by
  induction hv with
  | nil g => exact fun hs _ => ⟨hs, rfl⟩
  | decayStep g rate now ops hr ht h ih =>
    intro hs hσ
    have hd : 0 ≤ (g.decay now rate).score :=
      mul_nonneg hs (Real.exp_pos _).le
    obtain ⟨h1, h2⟩ := ih hd hσ
    refine ⟨?_, ?_⟩
    · simpa [applyOps, applyOp] using h1
    · simpa [applyOps, applyOp] using h2
  | reinforceStep g now ops h ih =>
    intro hs hσ
    have hd : 0 ≤ (g.reinforce 0.5 now).score := by
      have : (0:ℝ) ≤ 0.5 * g.trait_sigma := by positivity
      simpa [Goal.reinforce] using add_nonneg hs this
    obtain ⟨h1, h2⟩ := ih hd hσ
    refine ⟨?_, ?_⟩
    · simpa [applyOps, applyOp] using h1
    · simpa [applyOps, applyOp] using h2

/-- C8: starting from a non-negative score and a positive `trait_sigma`,
any sequence of decay calls (positive rate, non-negative elapsed time)
and default reinforcements keeps the score non-negative, and no
operation ever changes `trait_sigma`. -/
theorem goal_score_nonneg_and_sigma_immutable (g : Goal) (ops : List GoalOp)
    (hs : 0 ≤ g.score) (hσ : 0 < g.trait_sigma) (hv : ValidOps g ops) :
    0 ≤ (applyOps g ops).score ∧ (applyOps g ops).trait_sigma = g.trait_sigma :=
  validOps_score_nonneg g ops hv hs hσ

/-- Witness for C8 at a concrete goal and operation sequence. -/
theorem goal_score_nonneg_and_sigma_immutable_witness :
    0 ≤ (applyOps sampleGoal [GoalOp.decayStep 1 0, GoalOp.reinforceStep 0]).score ∧
    (applyOps sampleGoal [GoalOp.decayStep 1 0, GoalOp.reinforceStep 0]).trait_sigma
      = sampleGoal.trait_sigma :=
  goal_score_nonneg_and_sigma_immutable sampleGoal _
    (by norm_num [sampleGoal]) (by norm_num [sampleGoal])
    (ValidOps.decayStep _ _ _ _ one_pos (by norm_num [sampleGoal])
      (ValidOps.reinforceStep _ _ _ (ValidOps.nil _)))

/-- C6: `reinforce(boost)` sets the score to exactly
`score + boost * trait_sigma`, whatever the current score is. -/
theorem reinforce_adds_exactly_boost_times_sigma (g : Goal) (boost now : ℝ) :
    (g.reinforce boost now).score = g.score + boost * g.trait_sigma := rfl

/-- C7: `skew_for` over an empty profile stack is 1.0, and over profiles
`P1..Pn` is the product of each profile's multiplier for the trait, a
profile lacking the trait contributing the factor 1.0. -/
theorem skew_for_is_product_of_profiles (t : String) (ps : List (List (String × ℝ))) :
    (RoleContext.mk []).skew_for (some t) = 1 ∧
    (RoleContext.mk ps).skew_for (some t)
      = (ps.map fun role => roleGet role (some t)).prod := by
  constructor
  · show (1.0:ℝ) = 1
    norm_num
  · simp only [RoleContext.skew_for, List.prod_eq_foldl, List.foldl_map]
    norm_num

/-- C5: decaying after elapsed time `t1` and then after a further `t2`
yields the same score as one decay spanning `t1 + t2` (exact real
arithmetic; semigroup property of exponential decay). -/
theorem decay_is_a_semigroup (g : Goal) (r t1 t2 : ℝ) (hr : 0 < r)
    (h1 : 0 ≤ t1) (h2 : 0 ≤ t2) :
    ((g.decay (g.last_updated + t1) r).decay (g.last_updated + t1 + t2) r).score
      = (g.decay (g.last_updated + (t1 + t2)) r).score := by
  have key : (-(r * (g.last_updated + t1 - g.last_updated)))
      + (-(r * (g.last_updated + t1 + t2 - (g.last_updated + t1))))
      = -(r * (g.last_updated + (t1 + t2) - g.last_updated)) := by ring
  simp only [Goal.decay]
  rw [mul_assoc, ← Real.exp_add, key]

/-- Witness for C5 at a concrete goal, rate and pair of durations. -/
theorem decay_is_a_semigroup_witness :
    ((sampleGoal.decay (sampleGoal.last_updated + 1) 1).decay
        (sampleGoal.last_updated + 1 + 2) 1).score
      = (sampleGoal.decay (sampleGoal.last_updated + (1 + 2)) 1).score :=
  decay_is_a_semigroup sampleGoal 1 1 2 one_pos zero_le_one (by norm_num)

/-- First of the two goals sharing the name "dup". -/
noncomputable def dupGoalA : Goal :=
  { name := "dup"
    category := some "first"
    subcategory := none
    trait := none
    trait_sigma := 1
    score := 1
    last_updated := 0 }

/-- Second of the two goals sharing the name "dup": distinguishable
from the first by its category and score. -/
noncomputable def dupGoalB : Goal :=
  { name := "dup"
    category := some "second"
    subcategory := none
    trait := none
    trait_sigma := 1
    score := 2
    last_updated := 0 }

/-- C9 (evaluating the code at the failing input): constructing an
agent from two distinct goals that share the name "dup" raises no error
and silently collapses them to a single entry — the second goal, at the
first position — instead of reporting a configuration error. -/
theorem init_silently_collapses_duplicate_names :
    (TangentAgent.init [dupGoalA, dupGoalB] (RoleContext.mk [])).goals = [dupGoalB] := by
  simp [TangentAgent.init, makeGoals, dictInsert, dupGoalA, dupGoalB]

theorem decay_preserves_name (g : Goal) (now rate : ℝ) :
    (g.decay now rate).name = g.name := rfl

theorem assessRelevance_eq_nil (a : TangentAgent) (stimulus : String)
    (h : ∀ g ∈ a.goals, ¬ nameMatches g stimulus) :
    a.assessRelevance stimulus = [] := by
  rw [TangentAgent.assessRelevance, List.filterMap_eq_nil_iff]
  intro g hg
  rw [if_neg (h g hg)]

/-- C4: `prioritized_goals` returns exactly the owned goals (a
permutation, each goal value untouched), sorted descending by
`weighted_score(role_context)`, and two goals with equal weighted
scores keep their insertion order (stability); being a pure function of
the agent, it changes neither the goals nor the history. -/
theorem prioritized_goals_sorted_descending_stable (a : TangentAgent) :
    a.prioritized_goals.Perm a.goals ∧
    List.Sorted
      (fun g h => h.weighted_score a.role_context ≤ g.weighted_score a.role_context)
      a.prioritized_goals ∧
    ∀ g h, [g, h].Sublist a.goals →
      g.weighted_score a.role_context = h.weighted_score a.role_context →
      [g, h].Sublist a.prioritized_goals := by
  letI : DecidableRel fun g h : Goal =>
      h.weighted_score a.role_context ≤ g.weighted_score a.role_context :=
    fun _ _ => Real.decidableLE _ _
  haveI : IsTotal Goal fun g h : Goal =>
      h.weighted_score a.role_context ≤ g.weighted_score a.role_context :=
    ⟨fun _ _ => le_total _ _⟩
  haveI : IsTrans Goal fun g h : Goal =>
      h.weighted_score a.role_context ≤ g.weighted_score a.role_context :=
    ⟨fun _ _ _ h1 h2 => le_trans h2 h1⟩
  refine ⟨List.perm_insertionSort _ _, List.sorted_insertionSort _ _, ?_⟩
  intro g h hsub heq
  exact List.pair_sublist_insertionSort heq.ge hsub

/-- C3: when no owned goal's name substring-matches the stimulus (in
particular when there are no goals at all), `perceive` returns best
goal `none`, relevance 0, not aligned, and every goal is only decayed,
never reinforced. -/
theorem perceive_without_match_yields_none (a : TangentAgent) (stimulus : String) (now : ℝ)
    (hnm : ∀ g ∈ a.goals, ¬ nameMatches g stimulus) :
    (a.perceive stimulus now).1.best_goal = none ∧
    (a.perceive stimulus now).1.relevance_score = 0 ∧
    ¬ (a.perceive stimulus now).1.aligned ∧
    (a.perceive stimulus now).2.goals = a.goals.map fun g => g.decay now 0.01 := by
  have h1 : ∀ g ∈ (a.decayAll now).goals, ¬ nameMatches g stimulus := by
    intro g hg
    rw [TangentAgent.decayAll] at hg
    simp only [List.mem_map] at hg
    obtain ⟨g0, hg0, rfl⟩ := hg
    exact hnm g0 hg0
  have h2 : (a.decayAll now).assessRelevance stimulus = [] :=
    assessRelevance_eq_nil _ _ h1
  have h3 : bestOf ((a.decayAll now).assessRelevance stimulus) = (none, 0) := by
    rw [h2]; rfl
  refine ⟨?_, ?_, ?_, ?_⟩
  · show (bestOf ((a.decayAll now).assessRelevance stimulus)).1 = none
    rw [h3]
  · show (bestOf ((a.decayAll now).assessRelevance stimulus)).2 = 0
    rw [h3]
  · show ¬ (0.3:ℝ) < (bestOf ((a.decayAll now).assessRelevance stimulus)).2
    rw [h3]
    norm_num
  · show (if (0.3:ℝ) < (bestOf ((a.decayAll now).assessRelevance stimulus)).2 ∧ _ then _ else _) = _
    rw [h3]
    rw [if_neg]
    · rfl
    · rintro ⟨hlt, -⟩
      norm_num at hlt

/-- A one-goal agent whose single goal is `sampleGoal` (name "build"),
with an empty role context. -/
noncomputable def singleAgent : TangentAgent :=
  TangentAgent.init [sampleGoal] (RoleContext.mk [])

/-- Witness for C3: the stimulus "xyz" matches no goal of the one-goal
agent, and `perceive` then reports none / 0 / not aligned. -/
theorem perceive_without_match_yields_none_witness :
    (singleAgent.perceive "xyz" 0).1.best_goal = none ∧
    (singleAgent.perceive "xyz" 0).1.relevance_score = 0 ∧
    ¬ (singleAgent.perceive "xyz" 0).1.aligned ∧
    (singleAgent.perceive "xyz" 0).2.goals
      = singleAgent.goals.map fun g => g.decay 0 0.01 :=
  perceive_without_match_yields_none singleAgent "xyz" 0 (by
    intro g hg
    have : g = sampleGoal := by
      simpa [singleAgent, TangentAgent.init, makeGoals, dictInsert] using hg
    subst this
    decide)

theorem foldl_best_mem (xs : List (String × ℝ)) (b : Option String × ℝ) :
    xs.foldl (fun b kv => if b.2 < kv.2 then (some kv.1, kv.2) else b) b = b ∨
    ∃ kv ∈ xs,
      xs.foldl (fun b kv => if b.2 < kv.2 then (some kv.1, kv.2) else b) b
        = (some kv.1, kv.2) := by
  induction xs generalizing b with
  | nil => exact Or.inl rfl
  | cons x xs ih =>
    simp only [List.foldl_cons]
    rcases ih (if b.2 < x.2 then (some x.1, x.2) else b) with h | ⟨kv, hkv, h⟩
    · by_cases hx : b.2 < x.2
      · exact Or.inr ⟨x, List.mem_cons_self x xs, by rw [h, if_pos hx]⟩
      · exact Or.inl (by rw [h, if_neg hx])
    · exact Or.inr ⟨kv, List.mem_cons_of_mem x hkv, h⟩

theorem bestOf_mem (l : List (String × ℝ)) (n : String) (h : (bestOf l).1 = some n) :
    (n, (bestOf l).2) ∈ l := by
  match l with
  | [] => cases h
  | x :: xs =>
    rw [bestOf] at h ⊢
    rcases foldl_best_mem xs (some x.1, x.2) with h2 | ⟨kv, hkv, h2⟩
    · rw [h2] at h ⊢
      obtain rfl : x.1 = n := Option.some_inj.mp h
      exact List.mem_cons_self x xs
    · rw [h2] at h ⊢
      obtain rfl : kv.1 = n := Option.some_inj.mp h
      exact List.mem_cons_of_mem x hkv

theorem assessRelevance_mem (a : TangentAgent) (stimulus : String) (p : String × ℝ)
    (h : p ∈ a.assessRelevance stimulus) :
    ∃ g ∈ a.goals, g.name = p.1 ∧ nameMatches g stimulus ∧
      p.2 = g.weighted_score a.role_context := by
  rw [TangentAgent.assessRelevance] at h
  simp only [List.mem_filterMap] at h
  obtain ⟨g, hg, hf⟩ := h
  by_cases hm : nameMatches g stimulus
  · rw [if_pos hm] at hf
    obtain rfl := Option.some_inj.mp hf
    exact ⟨g, hg, rfl, hm, rfl⟩
  · rw [if_neg hm] at hf
    cases hf

theorem perceive_goals_eq (a : TangentAgent) (stimulus : String) (now : ℝ) :
    (a.perceive stimulus now).2.goals =
      if (0.3:ℝ) < (a.perceiveBest stimulus now).2 ∧
          hasKey (a.decayAll now).goals (a.perceiveBest stimulus now).1 = true then
        (a.decayAll now).goals.map fun g =>
          if some g.name = (a.perceiveBest stimulus now).1 then g.reinforce 0.5 now
          else g
      else (a.decayAll now).goals := rfl

/-- C2: `perceive` never reinforces a goal whose lowercased name is not
a substring of the lowercased stimulus; every goal other than the
single selected best match — and every goal at all when the best
relevance does not exceed 0.3 — ends up merely decayed, and the
selected best match always names a substring-matching goal. -/
theorem perceive_reinforces_only_best_matching (a : TangentAgent) (stimulus : String)
    (now : ℝ) (hnd : (a.goals.map Goal.name).Nodup) :
    (∀ (i : ℕ) (g : Goal), a.goals[i]? = some g → ¬ nameMatches g stimulus →
      ((a.perceive stimulus now).2.goals)[i]? = some (g.decay now 0.01)) ∧
    (∀ (i : ℕ) (g : Goal), a.goals[i]? = some g →
      (some g.name ≠ (a.perceiveBest stimulus now).1 ∨
        ¬ (0.3:ℝ) < (a.perceiveBest stimulus now).2) →
      ((a.perceive stimulus now).2.goals)[i]? = some (g.decay now 0.01)) ∧
    (∀ n, (a.perceiveBest stimulus now).1 = some n →
      ∃ g ∈ a.goals, g.name = n ∧ nameMatches g stimulus) := by
  have hbest : ∀ n, (a.perceiveBest stimulus now).1 = some n →
      ∃ g ∈ a.goals, g.name = n ∧ nameMatches g stimulus := by
    intro n hn
    have hmem : (n, (a.perceiveBest stimulus now).2)
        ∈ (a.decayAll now).assessRelevance stimulus :=
      bestOf_mem _ n hn
    obtain ⟨g', hg', hname, hmatch, -⟩ := assessRelevance_mem _ _ _ hmem
    rw [TangentAgent.decayAll] at hg'
    simp only [List.mem_map] at hg'
    obtain ⟨g0, hg0, rfl⟩ := hg'
    exact ⟨g0, hg0, hname, hmatch⟩
  have honly : ∀ (i : ℕ) (g : Goal), a.goals[i]? = some g →
      (some g.name ≠ (a.perceiveBest stimulus now).1 ∨
        ¬ (0.3:ℝ) < (a.perceiveBest stimulus now).2) →
      ((a.perceive stimulus now).2.goals)[i]? = some (g.decay now 0.01) := by
    intro i g hig hcond
    rw [perceive_goals_eq]
    by_cases hc : (0.3:ℝ) < (a.perceiveBest stimulus now).2 ∧
        hasKey (a.decayAll now).goals (a.perceiveBest stimulus now).1 = true
    · rw [if_pos hc]
      have hne : some g.name ≠ (a.perceiveBest stimulus now).1 := by
        rcases hcond with h | h
        · exact h
        · exact absurd hc.1 h
      rw [TangentAgent.decayAll]
      simp only [List.map_map, List.getElem?_map, hig, Option.map_some', Function.comp_apply]
      exact congrArg some (if_neg hne)
    · rw [if_neg hc, TangentAgent.decayAll]
      simp only [List.getElem?_map, hig, Option.map_some']
  refine ⟨?_, honly, hbest⟩
  intro i g hig hm
  refine honly i g hig (Or.inl ?_)
  intro hb
  obtain ⟨g', hg', hname, hmatch⟩ := hbest g.name hb.symm
  have : g' = g := by
    have hinj := List.inj_on_of_nodup_map hnd
    exact hinj hg' (List.getElem?_mem hig) hname
  exact hm (this ▸ hmatch)

/-- Witness for C2 at the concrete one-goal agent and a non-matching
stimulus. -/
theorem perceive_reinforces_only_best_matching_witness :
    (∀ (i : ℕ) (g : Goal), singleAgent.goals[i]? = some g → ¬ nameMatches g "xyz" →
      ((singleAgent.perceive "xyz" 0).2.goals)[i]? = some (g.decay 0 0.01)) ∧
    (∀ (i : ℕ) (g : Goal), singleAgent.goals[i]? = some g →
      (some g.name ≠ (singleAgent.perceiveBest "xyz" 0).1 ∨
        ¬ (0.3:ℝ) < (singleAgent.perceiveBest "xyz" 0).2) →
      ((singleAgent.perceive "xyz" 0).2.goals)[i]? = some (g.decay 0 0.01)) ∧
    (∀ n, (singleAgent.perceiveBest "xyz" 0).1 = some n →
      ∃ g ∈ singleAgent.goals, g.name = n ∧ nameMatches g "xyz") :=
  perceive_reinforces_only_best_matching singleAgent "xyz" 0 (by decide)

/-- C10: a goal with the empty name is always included in the relevance
map — the empty string is a substring of every stimulus — and for an
agent owning exactly that goal it is selected as best match and
reinforced by any stimulus whenever its (decayed) weighted score
exceeds 0.3. -/
theorem empty_named_goal_matches_every_stimulus (a : TangentAgent) (stimulus : String)
    (now : ℝ) :
    (∀ g ∈ a.goals, g.name = "" →
      (g.name, g.weighted_score a.role_context) ∈ a.assessRelevance stimulus) ∧
    (∀ g, a.goals = [g] → g.name = "" →
      (0.3:ℝ) < (g.decay now 0.01).weighted_score a.role_context →
      (a.perceive stimulus now).2.goals = [(g.decay now 0.01).reinforce 0.5 now]) := by
  have hmatch : ∀ g : Goal, g.name = "" → nameMatches g stimulus := by
    intro g hg
    rw [nameMatches, hg]
    exact ⟨[], strLower stimulus, rfl⟩
  constructor
  · intro g hg hname
    rw [TangentAgent.assessRelevance]
    exact List.mem_filterMap.mpr ⟨g, hg, by rw [if_pos (hmatch g hname)]⟩
  · intro g hgoals hname hscore
    have hdname : (g.decay now 0.01).name = "" := hname
    have hm : nameMatches (g.decay now 0.01) stimulus := hmatch _ hdname
    have hd : (a.decayAll now).goals = [g.decay now 0.01] := by
      rw [TangentAgent.decayAll, hgoals]
      rfl
    have hassess : (a.decayAll now).assessRelevance stimulus =
        [((g.decay now 0.01).name,
          (g.decay now 0.01).weighted_score (a.decayAll now).role_context)] := by
      rw [TangentAgent.assessRelevance, hd, List.filterMap_cons, if_pos hm]
      rfl
    have hbestv : a.perceiveBest stimulus now =
        (some (g.decay now 0.01).name,
          (g.decay now 0.01).weighted_score (a.decayAll now).role_context) := by
      rw [TangentAgent.perceiveBest, hassess]
      rfl
    rw [perceive_goals_eq, hbestv, hd]
    rw [if_pos ⟨hscore, by simp [hasKey]⟩]
    simp

/-- The goal of the end-to-end scenario: name "build", trait
"constructive", `trait_sigma = 1.2`, initial score 1.0, constructed at
instant 0. -/
noncomputable def buildGoal : Goal :=
  { name := "build"
    category := some "development"
    subcategory := some "systems"
    trait := some "constructive"
    trait_sigma := 1.2
    score := 1
    last_updated := 0 }

/-- The scenario's role context: skew 1.2 for "constructive". -/
noncomputable def buildRoleContext : RoleContext :=
  RoleContext.mk [[("constructive", 1.2)]]

/-- The scenario's agent: exactly the one goal, with that context. -/
noncomputable def buildAgent : TangentAgent :=
  TangentAgent.init [buildGoal] buildRoleContext

theorem buildAgent_goals : buildAgent.goals = [buildGoal] := rfl

theorem buildGoal_decayed_weighted :
    (buildGoal.decay 0 0.01).weighted_score (buildAgent.decayAll 0).role_context
      = 1.44 := by
  rw [Goal.weighted_score, Goal.decay]
  show buildGoal.score * Real.exp (-(0.01 * (0 - buildGoal.last_updated)))
      * buildGoal.trait_sigma
      * (buildAgent.decayAll 0).role_context.skew_for buildGoal.trait = 1.44
  have hskew : (buildAgent.decayAll 0).role_context.skew_for buildGoal.trait
      = 1.0 * 1.2 := rfl
  rw [hskew]
  show (1:ℝ) * Real.exp (-(0.01 * (0 - 0))) * 1.2 * (1.0 * 1.2) = 1.44
  norm_num [Real.exp_zero]

/-- C1: for the one-goal agent (goal "build", trait "constructive",
sigma 1.2, score 1.0, role skew 1.2) perceiving "Let's build something"
with zero elapsed time returns relevance `1.0 * 1.2 * 1.2 = 1.44`,
aligned, best goal "build", and afterwards the goal's score is
`1.0 + 0.5 * 1.2 = 1.6`. -/
theorem perceive_build_scenario :
    (buildAgent.perceive "Let's build something" 0).1.relevance_score = 1.44 ∧
    (buildAgent.perceive "Let's build something" 0).1.aligned ∧
    (buildAgent.perceive "Let's build something" 0).1.best_goal = some "build" ∧
    ((buildAgent.perceive "Let's build something" 0).2.goals).map Goal.score
      = [1.6] := by
  have hm : nameMatches (buildGoal.decay 0 0.01) "Let's build something" := by decide
  have hd : (buildAgent.decayAll 0).goals = [buildGoal.decay 0 0.01] := by
    rw [TangentAgent.decayAll, buildAgent_goals]
    rfl
  have hassess : (buildAgent.decayAll 0).assessRelevance "Let's build something" =
      [((buildGoal.decay 0 0.01).name,
        (buildGoal.decay 0 0.01).weighted_score (buildAgent.decayAll 0).role_context)] := by
    rw [TangentAgent.assessRelevance, hd, List.filterMap_cons, if_pos hm]
    rfl
  have hbestv : buildAgent.perceiveBest "Let's build something" 0 =
      (some (buildGoal.decay 0 0.01).name,
        (buildGoal.decay 0 0.01).weighted_score (buildAgent.decayAll 0).role_context) := by
    rw [TangentAgent.perceiveBest, hassess]
    rfl
  refine ⟨?_, ?_, ?_, ?_⟩
  · show (buildAgent.perceiveBest "Let's build something" 0).2 = 1.44
    rw [hbestv]
    exact buildGoal_decayed_weighted
  · show (0.3:ℝ) < (buildAgent.perceiveBest "Let's build something" 0).2
    rw [hbestv]
    show (0.3:ℝ) < (buildGoal.decay 0 0.01).weighted_score (buildAgent.decayAll 0).role_context
    rw [buildGoal_decayed_weighted]
    norm_num
  · show (buildAgent.perceiveBest "Let's build something" 0).1 = some "build"
    rw [hbestv]
    rfl
  · rw [perceive_goals_eq, hbestv, hd]
    rw [if_pos ⟨by rw [buildGoal_decayed_weighted]; norm_num, by simp [hasKey]⟩]
    simp only [List.map_cons, List.map_nil, if_pos trivial]
    show [((buildGoal.decay 0 0.01).reinforce 0.5 0).score] = [1.6]
    rw [Goal.reinforce, Goal.decay]
    show [buildGoal.score * Real.exp (-(0.01 * (0 - buildGoal.last_updated)))
      + 0.5 * buildGoal.trait_sigma] = [1.6]
    show [(1:ℝ) * Real.exp (-(0.01 * (0 - 0))) + 0.5 * 1.2] = [(1.6:ℝ)]
    norm_num [Real.exp_zero]

end Tangent
